import Mathlib

/-!
Verification of the descriptive-statistics module (mean, pct_change, slope,
pearson) of this repository.

The Rust source operates on IEEE-754 doubles.  We embed a double as either a
finite real value or NaN; arithmetic is exact real arithmetic with NaN
propagation, infinities and the sign of zero are collapsed into the real line.
Each Rust function becomes a Lean function on lists of such values, with the
indexed accumulation loops rendered as left folds over the index range, in the
same order as the source loops.
-/

noncomputable section

/-- Idealized IEEE-754 double: a finite real value or NaN.  Every arithmetic
operation propagates NaN, matching IEEE semantics on the code paths the
module exercises. -/
inductive F where
  | fin : ℝ → F
  | nan : F

namespace F

/-- Addition; NaN absorbs. -/
def add : F → F → F
  | fin a, fin b => fin (a + b)
  | _, _ => nan

/-- Subtraction; NaN absorbs. -/
def sub : F → F → F
  | fin a, fin b => fin (a - b)
  | _, _ => nan

/-- Multiplication; NaN absorbs. -/
def mul : F → F → F
  | fin a, fin b => fin (a * b)
  | _, _ => nan

/-- Division; NaN absorbs, and division by zero is degenerate (the source
guards every division, so this arm is never reached on a guarded path). -/
def div : F → F → F
  | fin a, fin b => if b = 0 then nan else fin (a / b)
  | _, _ => nan

/-- Absolute value, as f64::abs. -/
def abs : F → F
  | fin a => fin |a|
  | nan => nan

/-- Square root, as f64::sqrt: NaN on NaN or negative input. -/
def sqrt : F → F
  | fin a => if a < 0 then nan else fin (Real.sqrt a)
  | nan => nan

/-- IEEE equality test, as the == of f64: NaN compares unequal to
everything, negative zero equals positive zero (signs of zero are already
collapsed in the embedding). -/
def ieeeEq : F → F → Prop
  | fin a, fin b => a = b
  | _, _ => False

instance ieeeEqDec : (x y : F) → Decidable (ieeeEq x y)
  | fin a, fin b => inferInstanceAs (Decidable (a = b))
  | fin _, nan => inferInstanceAs (Decidable False)
  | nan, _ => inferInstanceAs (Decidable False)

/-- Sum of a list of values left to right starting from 0.0, as the
accumulation loops of mean and slope. -/
def sumF (l : List F) : F := l.foldl add (fin 0)

/-- Embedding of the Rust function mean: arithmetic mean of the values,
NaN when the array is empty. -/
def mean (values : List F) : F :=
  if values.length = 0 then nan
  else div (sumF values) (fin (values.length : ℝ))

/-- Embedding of the Rust function pct_change: percent change between the
first and the last value, NaN when fewer than 2 values or the first value
compares equal to 0.0.  Out-of-range reads of a Float64Array yield NaN,
hence the NaN default of getD (never reached under the length guard). -/
def pct_change (values : List F) : F :=
  if values.length < 2 then nan
  else
    let first := values.getD 0 nan
    let last := values.getD (values.length - 1) nan
    if ieeeEq first (fin 0) then nan
    else mul (div (sub last first) (abs first)) (fin 100)

/-- The accumulation loop of slope: starting from (0.0, 0.0), for i in 0..n
add (dx * dy, dx * dx) where dx = i - xMean and dy = values[i] - yMean. -/
def slopeAcc (values : List F) (xMean : ℝ) (yMean : F) (n : ℕ) : F × F :=
  (List.range n).foldl
    (fun s (i : ℕ) =>
      (add s.1 (mul (fin ((i : ℝ) - xMean)) (sub (values.getD i nan) yMean)),
       add s.2 (mul (fin ((i : ℝ) - xMean)) (fin ((i : ℝ) - xMean)))))
    (fin 0, fin 0)

/-- The x_mean of slope, computed analytically as (n - 1) / 2, not by
summation, exactly as in the source. -/
def slopeXMean (values : List F) : ℝ := ((values.length : ℝ) - 1) / 2

/-- The y_mean of slope: left-to-right sum of the values divided by n. -/
def slopeYMean (values : List F) : F :=
  div (sumF values) (fin (values.length : ℝ))

/-- Embedding of the Rust function slope: least-squares slope of the values
against index position, NaN when fewer than 2 values or the accumulated
denominator compares equal to 0.0. -/
def slope (values : List F) : F :=
  if values.length < 2 then nan
  else
    let acc := slopeAcc values (slopeXMean values) (slopeYMean values) values.length
    if ieeeEq acc.2 (fin 0) then nan
    else div acc.1 acc.2

/-- The first loop of pearson: starting from (0.0, 0.0), for i in 0..n add
(a[i], b[i]) componentwise. -/
def pearsonSums (a b : List F) (n : ℕ) : F × F :=
  (List.range n).foldl
    (fun s i => (add s.1 (a.getD i nan), add s.2 (b.getD i nan)))
    (fin 0, fin 0)

/-- The second loop of pearson: starting from (0.0, 0.0, 0.0), for i in 0..n
add (da * db, da * da, db * db) where da = a[i] - meanA, db = b[i] - meanB. -/
def pearsonAcc (a b : List F) (meanA meanB : F) (n : ℕ) : F × F × F :=
  (List.range n).foldl
    (fun s (i : ℕ) =>
      (add s.1 (mul (sub (a.getD i nan) meanA) (sub (b.getD i nan) meanB)),
       add s.2.1 (mul (sub (a.getD i nan) meanA) (sub (a.getD i nan) meanA)),
       add s.2.2 (mul (sub (b.getD i nan) meanB) (sub (b.getD i nan) meanB))))
    (fin 0, fin 0, fin 0)

/-- The truncated length n = min(na, nb) of pearson. -/
def pearsonN (a b : List F) : ℕ := min a.length b.length

/-- The mean of the first n elements of a, as computed by pearson. -/
def pearsonMeanA (a b : List F) : F :=
  div (pearsonSums a b (pearsonN a b)).1 (fin (pearsonN a b : ℝ))

/-- The mean of the first n elements of b, as computed by pearson. -/
def pearsonMeanB (a b : List F) : F :=
  div (pearsonSums a b (pearsonN a b)).2 (fin (pearsonN a b : ℝ))

/-- Embedding of the Rust function pearson: Pearson correlation coefficient
of the two arrays truncated to the shorter length, NaN when that length is 0
or the denominator sqrt(den_a * den_b) compares equal to 0.0. -/
def pearson (a b : List F) : F :=
  let n := pearsonN a b
  if n = 0 then nan
  else
    let acc := pearsonAcc a b (pearsonMeanA a b) (pearsonMeanB a b) n
    let denom := sqrt (mul acc.2.1 acc.2.2)
    if ieeeEq denom (fin 0) then nan
    else div acc.1 denom

/-- The numerator of pearson: the accumulated sum of (a_i - mean_a) * (b_i - mean_b). -/
def pearsonNum (a b : List F) : F :=
  (pearsonAcc a b (pearsonMeanA a b) (pearsonMeanB a b) (pearsonN a b)).1

/-- The denominator of pearson: sqrt(den_a * den_b) over the accumulated
squared deviations. -/
def pearsonDenom (a b : List F) : F :=
  sqrt (mul (pearsonAcc a b (pearsonMeanA a b) (pearsonMeanB a b) (pearsonN a b)).2.1
    (pearsonAcc a b (pearsonMeanA a b) (pearsonMeanB a b) (pearsonN a b)).2.2)

end F

/-! Basic simp lemmas about the float model. -/

@[simp]
lemma ieeeEq_fin_iff (a b : ℝ) : F.ieeeEq (F.fin a) (F.fin b) ↔ a = b := Iff.rfl

@[simp]
lemma ieeeEq_nan_left (x : F) : ¬ F.ieeeEq F.nan x := fun h => h

@[simp]
lemma ieeeEq_nan_right (x : F) : ¬ F.ieeeEq x F.nan := by
  cases x <;> exact fun h => h

/-! C6 and C8: the mean contract. -/

/-- C6: mean returns NaN exactly on the empty list, and otherwise the
left-to-right accumulated sum of the elements divided by the length; in
particular mean([]) = NaN and mean([1,2,3]) = 2. -/
theorem mean_contract :
    F.mean [] = F.nan ∧
    (∀ xs : List F, xs.length ≠ 0 →
      F.mean xs = F.div (List.foldl F.add (F.fin 0) xs) (F.fin (xs.length : ℝ))) ∧
    F.mean [F.fin 1, F.fin 2, F.fin 3] = F.fin 2 := by
  refine ⟨rfl, fun xs h => by simp [F.mean, F.sumF, h], ?_⟩
  norm_num [F.mean, F.sumF, F.add, F.div]

/-- Witness for C6 at the concrete input [5]. -/
theorem mean_contract_witness :
    F.mean [F.fin 5]
      = F.div (List.foldl F.add (F.fin 0) [F.fin 5]) (F.fin (([F.fin 5] : List F).length : ℝ)) :=
  mean_contract.2.1 [F.fin 5] (by simp)

/-- C8: the mean of a one-element list is its element, for every finite
value x. -/
theorem mean_singleton (x : ℝ) : F.mean [F.fin x] = F.fin x := by
  norm_num [F.mean, F.sumF, F.add, F.div]

/-! C5 and C7: the pct_change contract. -/

/-- C5: pct_change returns NaN when the list has fewer than 2 elements or
its first element compares IEEE-equal to 0.0 (negative zero is the same real
number 0), and otherwise ((last - first) / abs(first)) * 100; in particular
pct_change([0,10]) = NaN, pct_change([50,75]) = 50 and
pct_change([-50,-25]) = 50. -/
theorem pct_change_contract :
    (∀ xs : List F, xs.length < 2 → F.pct_change xs = F.nan) ∧
    (∀ xs : List F, 2 ≤ xs.length → xs.getD 0 F.nan = F.fin 0 →
      F.pct_change xs = F.nan) ∧
    (∀ xs : List F, 2 ≤ xs.length → ¬ F.ieeeEq (xs.getD 0 F.nan) (F.fin 0) →
      F.pct_change xs =
        F.mul (F.div (F.sub (xs.getD (xs.length - 1) F.nan) (xs.getD 0 F.nan))
          (F.abs (xs.getD 0 F.nan))) (F.fin 100)) ∧
    F.pct_change [F.fin 0, F.fin 10] = F.nan ∧
    F.pct_change [F.fin 50, F.fin 75] = F.fin 50 ∧
    F.pct_change [F.fin (-50), F.fin (-25)] = F.fin 50 := by
  refine ⟨?_, ?_, ?_, ?_, ?_, ?_⟩
  · intro xs h; simp [F.pct_change, h]
  · intro xs h h0
    simp only [F.pct_change]
    rw [if_neg (Nat.not_lt.2 h), h0,
      if_pos (show F.ieeeEq (F.fin 0) (F.fin 0) from rfl)]
  · intro xs h h0
    rw [F.pct_change, if_neg (Nat.not_lt.2 h), if_neg h0]
  · norm_num [F.pct_change, F.ieeeEq]
  · norm_num [F.pct_change, F.ieeeEq, F.sub, F.div, F.abs, F.mul, List.getD]
  · norm_num [F.pct_change, F.ieeeEq, F.sub, F.div, F.abs, F.mul, List.getD]

/-- Witness for C5 at the concrete input [0, 10]. -/
theorem pct_change_contract_witness :
    F.pct_change [F.fin 0, F.fin 10] = F.nan :=
  pct_change_contract.2.1 [F.fin 0, F.fin 10] (by simp) rfl

/-- C7: pct_change reads only the first and the last element: two lists of
the same length at least 2 agreeing at position 0 and position n-1 get the
same result. -/
theorem pct_change_first_last_only (xs ys : List F)
    (hlen : xs.length = ys.length) (_h2 : 2 ≤ xs.length)
    (hfirst : xs.getD 0 F.nan = ys.getD 0 F.nan)
    (hlast : xs.getD (xs.length - 1) F.nan = ys.getD (ys.length - 1) F.nan) :
    F.pct_change xs = F.pct_change ys := by
  rw [F.pct_change, F.pct_change, hfirst, hlast, hlen]

/-- Witness for C7: two concrete lists differing only in the middle. -/
theorem pct_change_first_last_only_witness :
    F.pct_change [F.fin 1, F.fin 7, F.fin 3] = F.pct_change [F.fin 1, F.fin 9, F.fin 3] :=
  pct_change_first_last_only [F.fin 1, F.fin 7, F.fin 3] [F.fin 1, F.fin 9, F.fin 3]
    rfl (by simp) rfl rfl

/-! The slope denominator: characterization and positivity. -/

/-- The second component of the slope accumulator is the finite sum of the
squared index deviations; it never involves the elements, so it is never
NaN. -/
lemma slopeAcc_snd (v : List F) (xM : ℝ) (yM : F) (n : ℕ) :
    (F.slopeAcc v xM yM n).2
      = F.fin (∑ i ∈ Finset.range n, ((i : ℝ) - xM) * ((i : ℝ) - xM)) := by
  induction n with
  | zero => simp [F.slopeAcc]
  | succ n ih =>
      simp only [F.slopeAcc, List.range_succ, List.foldl_append, List.foldl_cons,
        List.foldl_nil] at ih ⊢
      rw [ih, Finset.sum_range_succ]
      simp [F.add, F.mul]

/-- For n at least 2, the sum of squared deviations of the indices 0..n-1
from (n - 1)/2 is positive: the term at index 0 is ((n-1)/2)^2 > 0. -/
lemma sum_sq_dev_pos (n : ℕ) (hn : 2 ≤ n) :
    0 < ∑ i ∈ Finset.range n, ((i : ℝ) - ((n : ℝ) - 1) / 2) * ((i : ℝ) - ((n : ℝ) - 1) / 2) := by
  have h2 : (2 : ℝ) ≤ (n : ℝ) := by exact_mod_cast hn
  refine Finset.sum_pos' (fun i _ => mul_self_nonneg _) ⟨0, Finset.mem_range.mpr (by omega), ?_⟩
  have hne : ((0 : ℕ) : ℝ) - ((n : ℝ) - 1) / 2 ≠ 0 := by
    push_cast
    intro h
    nlinarith
  exact mul_self_pos.mpr hne

/-- C3: for every list of length at least 2 the slope denominator is a
finite positive real, so the defensive den == 0.0 branch is not taken and
slope returns num / den, never NaN through that branch. -/
theorem slope_den_nonzero (xs : List F) (h : 2 ≤ xs.length) :
    ∃ d : ℝ, 0 < d ∧
      (F.slopeAcc xs (F.slopeXMean xs) (F.slopeYMean xs) xs.length).2 = F.fin d ∧
      F.slope xs
        = F.div (F.slopeAcc xs (F.slopeXMean xs) (F.slopeYMean xs) xs.length).1 (F.fin d) := by
  refine ⟨_, sum_sq_dev_pos xs.length h, slopeAcc_snd xs _ _ xs.length, ?_⟩
  have hd := slopeAcc_snd xs (F.slopeXMean xs) (F.slopeYMean xs) xs.length
  simp only [F.slope, F.slopeXMean] at hd ⊢
  rw [if_neg (Nat.not_lt.2 h), hd]
  rw [if_neg (by simpa using (sum_sq_dev_pos xs.length h).ne')]

/-- Witness for C3 at the concrete input [1, 2]. -/
theorem slope_den_nonzero_witness :
    ∃ d : ℝ, 0 < d ∧
      (F.slopeAcc [F.fin 1, F.fin 2] (F.slopeXMean [F.fin 1, F.fin 2])
        (F.slopeYMean [F.fin 1, F.fin 2]) ([F.fin 1, F.fin 2] : List F).length).2 = F.fin d ∧
      F.slope [F.fin 1, F.fin 2]
        = F.div (F.slopeAcc [F.fin 1, F.fin 2] (F.slopeXMean [F.fin 1, F.fin 2])
            (F.slopeYMean [F.fin 1, F.fin 2]) ([F.fin 1, F.fin 2] : List F).length).1 (F.fin d) :=
  slope_den_nonzero [F.fin 1, F.fin 2] (by simp)

/-- C2: slope returns NaN when the list has fewer than 2 elements, and
otherwise runs the accumulation with the analytic x_mean = (n-1)/2 and the
summed y_mean, returning NaN when the accumulated denominator compares equal
to 0.0 and num / den otherwise; in particular slope([1,2,3,4]) = 1 and
slope([5,5,5,5]) = 0. -/
theorem slope_contract :
    (∀ xs : List F, xs.length < 2 → F.slope xs = F.nan) ∧
    (∀ xs : List F, 2 ≤ xs.length →
      F.slope xs =
        if F.ieeeEq (F.slopeAcc xs (F.slopeXMean xs) (F.slopeYMean xs) xs.length).2 (F.fin 0)
        then F.nan
        else F.div (F.slopeAcc xs (F.slopeXMean xs) (F.slopeYMean xs) xs.length).1
          (F.slopeAcc xs (F.slopeXMean xs) (F.slopeYMean xs) xs.length).2) ∧
    F.slope [F.fin 1, F.fin 2, F.fin 3, F.fin 4] = F.fin 1 ∧
    F.slope [F.fin 5, F.fin 5, F.fin 5, F.fin 5] = F.fin 0 := by
  have hr : List.range 4 = [0, 1, 2, 3] := rfl
  refine ⟨?_, ?_, ?_, ?_⟩
  · intro xs h; simp [F.slope, h]
  · intro xs h
    simp only [F.slope]
    rw [if_neg (Nat.not_lt.2 h)]
  · have g0 : ([F.fin 1, F.fin 2, F.fin 3, F.fin 4] : List F).getD 0 F.nan = F.fin 1 := rfl
    have g1 : ([F.fin 1, F.fin 2, F.fin 3, F.fin 4] : List F).getD 1 F.nan = F.fin 2 := rfl
    have g2 : ([F.fin 1, F.fin 2, F.fin 3, F.fin 4] : List F).getD 2 F.nan = F.fin 3 := rfl
    have g3 : ([F.fin 1, F.fin 2, F.fin 3, F.fin 4] : List F).getD 3 F.nan = F.fin 4 := rfl
    norm_num [F.slope, F.slopeAcc, F.slopeXMean, F.slopeYMean, F.sumF, hr,
      g0, g1, g2, g3, F.add, F.sub, F.mul, F.div, F.ieeeEq]
  · have g : ∀ i, ([F.fin 5, F.fin 5, F.fin 5, F.fin 5] : List F).getD i F.nan
        = if i < 4 then F.fin 5 else F.nan := by
      intro i
      match i with
      | 0 => rfl
      | 1 => rfl
      | 2 => rfl
      | 3 => rfl
      | (m + 4) => simp [List.getD]
    norm_num [F.slope, F.slopeAcc, F.slopeXMean, F.slopeYMean, F.sumF, hr,
      g, F.add, F.sub, F.mul, F.div, F.ieeeEq]

/-- Witness for C2 at the concrete input [7]. -/
theorem slope_contract_witness : F.slope [F.fin 7] = F.nan :=
  slope_contract.1 [F.fin 7] (by simp)

/-! C1: the pearson contract. -/

set_option maxHeartbeats 1600000 in
/-- C1: pearson returns NaN when min(na, nb) = 0, otherwise truncates both
lists to n = min(na, nb), takes the two sequential means, accumulates num,
den_a and den_b in index order, and returns NaN when sqrt(den_a * den_b)
compares equal to 0.0 and num / sqrt(den_a * den_b) otherwise; in particular
pearson([1,2,3],[2,4,6]) = 1, pearson([1,2,3],[3,2,1]) = -1 and
pearson([1,1,1],[1,2,3]) = NaN. -/
theorem pearson_contract :
    (∀ a b : List F, min a.length b.length = 0 → F.pearson a b = F.nan) ∧
    (∀ a b : List F, min a.length b.length ≠ 0 →
      F.ieeeEq (F.pearsonDenom a b) (F.fin 0) → F.pearson a b = F.nan) ∧
    (∀ a b : List F, min a.length b.length ≠ 0 →
      ¬ F.ieeeEq (F.pearsonDenom a b) (F.fin 0) →
      F.pearson a b = F.div (F.pearsonNum a b) (F.pearsonDenom a b)) ∧
    F.pearson [F.fin 1, F.fin 2, F.fin 3] [F.fin 2, F.fin 4, F.fin 6] = F.fin 1 ∧
    F.pearson [F.fin 1, F.fin 2, F.fin 3] [F.fin 3, F.fin 2, F.fin 1] = F.fin (-1) ∧
    F.pearson [F.fin 1, F.fin 1, F.fin 1] [F.fin 1, F.fin 2, F.fin 3] = F.nan := by
  have hr : List.range 3 = [0, 1, 2] := rfl
  have ga0 : ([F.fin 1, F.fin 2, F.fin 3] : List F).getD 0 F.nan = F.fin 1 := rfl
  have ga1 : ([F.fin 1, F.fin 2, F.fin 3] : List F).getD 1 F.nan = F.fin 2 := rfl
  have ga2 : ([F.fin 1, F.fin 2, F.fin 3] : List F).getD 2 F.nan = F.fin 3 := rfl
  refine ⟨?_, ?_, ?_, ?_, ?_, ?_⟩
  · intro a b h; simp [F.pearson, F.pearsonN, h]
  · intro a b h h0
    simp only [F.pearsonDenom, F.pearsonN] at h0
    simp only [F.pearson, F.pearsonN]
    rw [if_neg h, if_pos h0]
  · intro a b h h0
    simp only [F.pearsonDenom, F.pearsonN] at h0
    simp only [F.pearson, F.pearsonN, F.pearsonNum, F.pearsonDenom]
    rw [if_neg h, if_neg h0]
  · have h16 : Real.sqrt 16 = 4 := by
      rw [show (16 : ℝ) = 4 ^ 2 by norm_num]
      exact Real.sqrt_sq (by norm_num)
    have gb0 : ([F.fin 2, F.fin 4, F.fin 6] : List F).getD 0 F.nan = F.fin 2 := rfl
    have gb1 : ([F.fin 2, F.fin 4, F.fin 6] : List F).getD 1 F.nan = F.fin 4 := rfl
    have gb2 : ([F.fin 2, F.fin 4, F.fin 6] : List F).getD 2 F.nan = F.fin 6 := rfl
    norm_num [F.pearson, F.pearsonN, F.pearsonMeanA, F.pearsonMeanB, F.pearsonSums,
      F.pearsonAcc, hr, ga0, ga1, ga2, gb0, gb1, gb2,
      F.add, F.sub, F.mul, F.div, F.sqrt, F.ieeeEq, h16]
  · have h4 : Real.sqrt 4 = 2 := by
      rw [show (4 : ℝ) = 2 ^ 2 by norm_num]
      exact Real.sqrt_sq (by norm_num)
    have gb0 : ([F.fin 3, F.fin 2, F.fin 1] : List F).getD 0 F.nan = F.fin 3 := rfl
    have gb1 : ([F.fin 3, F.fin 2, F.fin 1] : List F).getD 1 F.nan = F.fin 2 := rfl
    have gb2 : ([F.fin 3, F.fin 2, F.fin 1] : List F).getD 2 F.nan = F.fin 1 := rfl
    norm_num [F.pearson, F.pearsonN, F.pearsonMeanA, F.pearsonMeanB, F.pearsonSums,
      F.pearsonAcc, hr, ga0, ga1, ga2, gb0, gb1, gb2,
      F.add, F.sub, F.mul, F.div, F.sqrt, F.ieeeEq, h4]
  · have gc0 : ([F.fin 1, F.fin 1, F.fin 1] : List F).getD 0 F.nan = F.fin 1 := rfl
    have gc1 : ([F.fin 1, F.fin 1, F.fin 1] : List F).getD 1 F.nan = F.fin 1 := rfl
    have gc2 : ([F.fin 1, F.fin 1, F.fin 1] : List F).getD 2 F.nan = F.fin 1 := rfl
    norm_num [F.pearson, F.pearsonN, F.pearsonMeanA, F.pearsonMeanB, F.pearsonSums,
      F.pearsonAcc, hr, ga0, ga1, ga2, gc0, gc1, gc2,
      F.add, F.sub, F.mul, F.div, F.sqrt, F.ieeeEq, Real.sqrt_zero]

/-- Witness for C1 at the concrete input of two empty lists. -/
theorem pearson_contract_witness : F.pearson [] [] = F.nan :=
  pearson_contract.1 [] [] rfl

/-! C4: pearson only reads the first min(na, nb) elements. -/

/-- The first pearson loop only reads indices below n. -/
lemma pearsonSums_congr (a b a2 b2 : List F) (n : ℕ)
    (ha : ∀ i < n, a.getD i F.nan = a2.getD i F.nan)
    (hb : ∀ i < n, b.getD i F.nan = b2.getD i F.nan) :
    F.pearsonSums a b n = F.pearsonSums a2 b2 n := by
  unfold F.pearsonSums
  exact List.foldl_ext _ _ _ fun s i hi => by
    rw [ha i (List.mem_range.mp hi), hb i (List.mem_range.mp hi)]

/-- The second pearson loop only reads indices below n. -/
lemma pearsonAcc_congr (a b a2 b2 : List F) (ma mb : F) (n : ℕ)
    (ha : ∀ i < n, a.getD i F.nan = a2.getD i F.nan)
    (hb : ∀ i < n, b.getD i F.nan = b2.getD i F.nan) :
    F.pearsonAcc a b ma mb n = F.pearsonAcc a2 b2 ma mb n := by
  unfold F.pearsonAcc
  exact List.foldl_ext _ _ _ fun s i hi => by
    rw [ha i (List.mem_range.mp hi), hb i (List.mem_range.mp hi)]

/-- pearson depends only on the truncated length and the elements of both
lists at indices below it. -/
lemma pearson_congr (a b a2 b2 : List F)
    (hn : min a.length b.length = min a2.length b2.length)
    (ha : ∀ i < min a.length b.length, a.getD i F.nan = a2.getD i F.nan)
    (hb : ∀ i < min a.length b.length, b.getD i F.nan = b2.getD i F.nan) :
    F.pearson a b = F.pearson a2 b2 := by
  have hsums : F.pearsonSums a b (min a2.length b2.length)
      = F.pearsonSums a2 b2 (min a2.length b2.length) := by
    rw [← hn]; exact pearsonSums_congr a b a2 b2 _ ha hb
  have hacc : ∀ ma mb, F.pearsonAcc a b ma mb (min a2.length b2.length)
      = F.pearsonAcc a2 b2 ma mb (min a2.length b2.length) := by
    intro ma mb; rw [← hn]; exact pearsonAcc_congr a b a2 b2 ma mb _ ha hb
  have hma : F.pearsonMeanA a b = F.pearsonMeanA a2 b2 := by
    simp only [F.pearsonMeanA, F.pearsonN]
    rw [hn, hsums]
  have hmb : F.pearsonMeanB a b = F.pearsonMeanB a2 b2 := by
    simp only [F.pearsonMeanB, F.pearsonN]
    rw [hn, hsums]
  simp only [F.pearson, F.pearsonN]
  rw [hn, hma, hmb, hacc]

/-- C4: pearson depends only on the first min(na, nb) elements of each list;
in particular appending extra trailing elements to the longer list leaves
the result unchanged. -/
theorem pearson_truncation :
    (∀ a b a2 b2 : List F,
      min a.length b.length = min a2.length b2.length →
      (∀ i < min a.length b.length, a.getD i F.nan = a2.getD i F.nan) →
      (∀ i < min a.length b.length, b.getD i F.nan = b2.getD i F.nan) →
      F.pearson a b = F.pearson a2 b2) ∧
    (∀ a b extra : List F, a.length ≤ b.length →
      F.pearson a (b ++ extra) = F.pearson a b) := by
  refine ⟨pearson_congr, ?_⟩
  intro a b extra hab
  refine pearson_congr a (b ++ extra) a b ?_ (fun i _ => rfl) ?_
  · simp only [List.length_append]
    omega
  · intro i hi
    have hib : i < b.length := by
      simp only [List.length_append] at hi
      omega
    exact List.getD_append b extra F.nan i hib

/-- Witness for C4: appending [9] to the longer list of a concrete pair. -/
theorem pearson_truncation_witness :
    F.pearson [F.fin 1, F.fin 2] ([F.fin 4, F.fin 5] ++ [F.fin 9])
      = F.pearson [F.fin 1, F.fin 2] [F.fin 4, F.fin 5] :=
  pearson_truncation.2 [F.fin 1, F.fin 2] [F.fin 4, F.fin 5] [F.fin 9] (by simp)

/-! C10: symmetry of pearson. -/

/-- Multiplication of embedded floats is commutative. -/
lemma mulF_comm (x y : F) : F.mul x y = F.mul y x := by
  cases x <;> cases y <;> simp [F.mul, mul_comm]

/-- Swapping the two lists swaps the two running sums of the first loop. -/
lemma pearsonSums_swap (a b : List F) (n : ℕ) :
    F.pearsonSums b a n = ((F.pearsonSums a b n).2, (F.pearsonSums a b n).1) := by
  induction n with
  | zero => simp [F.pearsonSums]
  | succ n ih =>
      simp only [F.pearsonSums, List.range_succ, List.foldl_append, List.foldl_cons,
        List.foldl_nil] at ih ⊢
      rw [ih]

/-- Swapping the two lists (and the two means) keeps num and exchanges
den_a and den_b in the second loop. -/
lemma pearsonAcc_swap (a b : List F) (ma mb : F) (n : ℕ) :
    F.pearsonAcc b a mb ma n
      = ((F.pearsonAcc a b ma mb n).1,
         (F.pearsonAcc a b ma mb n).2.2,
         (F.pearsonAcc a b ma mb n).2.1) := by
  induction n with
  | zero => simp [F.pearsonAcc]
  | succ n ih =>
      simp only [F.pearsonAcc, List.range_succ, List.foldl_append, List.foldl_cons,
        List.foldl_nil] at ih ⊢
      rw [ih, mulF_comm (F.sub (b.getD n F.nan) mb) (F.sub (a.getD n F.nan) ma)]

/-- Componentwise reading of the swap lemma: the numerator is unchanged. -/
lemma pearsonAcc_swap_num (a b : List F) (ma mb : F) (n : ℕ) :
    (F.pearsonAcc b a mb ma n).1 = (F.pearsonAcc a b ma mb n).1 := by
  rw [pearsonAcc_swap]

/-- Componentwise reading of the swap lemma: den_a of the swapped call is
den_b of the original. -/
lemma pearsonAcc_swap_denA (a b : List F) (ma mb : F) (n : ℕ) :
    (F.pearsonAcc b a mb ma n).2.1 = (F.pearsonAcc a b ma mb n).2.2 := by
  rw [pearsonAcc_swap]

/-- Componentwise reading of the swap lemma: den_b of the swapped call is
den_a of the original. -/
lemma pearsonAcc_swap_denB (a b : List F) (ma mb : F) (n : ℕ) :
    (F.pearsonAcc b a mb ma n).2.2 = (F.pearsonAcc a b ma mb n).2.1 := by
  rw [pearsonAcc_swap]

/-- C10: pearson is symmetric in its two arguments: the truncated length,
the two accumulations and the product den_a * den_b are all invariant under
swapping, so pearson(a, b) = pearson(b, a). -/
theorem pearson_symm (a b : List F) : F.pearson a b = F.pearson b a := by
  have hn : F.pearsonN b a = F.pearsonN a b := by
    simp [F.pearsonN, Nat.min_comm]
  have hma : F.pearsonMeanA b a = F.pearsonMeanB a b := by
    simp only [F.pearsonMeanA, F.pearsonMeanB, hn]
    rw [pearsonSums_swap]
  have hmb : F.pearsonMeanB b a = F.pearsonMeanA a b := by
    simp only [F.pearsonMeanA, F.pearsonMeanB, hn]
    rw [pearsonSums_swap]
  simp only [F.pearson]
  rw [hn, hma, hmb,
    pearsonAcc_swap_num a b (F.pearsonMeanA a b) (F.pearsonMeanB a b) (F.pearsonN a b),
    pearsonAcc_swap_denA a b (F.pearsonMeanA a b) (F.pearsonMeanB a b) (F.pearsonN a b),
    pearsonAcc_swap_denB a b (F.pearsonMeanA a b) (F.pearsonMeanB a b) (F.pearsonN a b),
    mulF_comm ((F.pearsonAcc a b (F.pearsonMeanA a b) (F.pearsonMeanB a b) (F.pearsonN a b)).2.2)
      ((F.pearsonAcc a b (F.pearsonMeanA a b) (F.pearsonMeanB a b) (F.pearsonN a b)).2.1)]

/-! C9: totality. -/

/-- C9: every call of the four functions terminates with some value of the
result type: either NaN or a real number.  No input, including empty lists
and lists holding NaN elements, escapes the two constructors. -/
theorem all_functions_total :
    (∀ xs : List F, F.mean xs = F.nan ∨ ∃ r : ℝ, F.mean xs = F.fin r) ∧
    (∀ xs : List F, F.pct_change xs = F.nan ∨ ∃ r : ℝ, F.pct_change xs = F.fin r) ∧
    (∀ xs : List F, F.slope xs = F.nan ∨ ∃ r : ℝ, F.slope xs = F.fin r) ∧
    (∀ a b : List F, F.pearson a b = F.nan ∨ ∃ r : ℝ, F.pearson a b = F.fin r) := by
  refine ⟨fun xs => ?_, fun xs => ?_, fun xs => ?_, fun a b => ?_⟩
  · cases h : F.mean xs with
    | fin r => exact Or.inr ⟨r, rfl⟩
    | nan => exact Or.inl rfl
  · cases h : F.pct_change xs with
    | fin r => exact Or.inr ⟨r, rfl⟩
    | nan => exact Or.inl rfl
  · cases h : F.slope xs with
    | fin r => exact Or.inr ⟨r, rfl⟩
    | nan => exact Or.inl rfl
  · cases h : F.pearson a b with
    | fin r => exact Or.inr ⟨r, rfl⟩
    | nan => exact Or.inl rfl
